import Mathlib

/-
Verification of the cc-container core against its specification.

Shallow embedding of:
  * the stream decoder `parseOutputStream` and the `executeTask` result logic
    (claude-agent-svc/src/services/claude.service.ts),
  * the process-release finalizer of `spawnClaudeProcess` (same file),
  * the session store (cc-headless-svc/src/services/session-manager.service.ts).

Machine conventions:
  * JS strings are modelled as `List Char`; `Date` values as `Nat`
    (milliseconds since epoch); JS `Map` as an association list.
  * `JSON.parse` is modelled by `jsonParse`, a recursive-descent parser for
    the JSON fragment the agent wire protocol uses (strings, integers,
    booleans, null, objects, arrays; common escape sequences; no floating
    point and no unicode escapes, neither of which occurs in the protocol).
  * An Effect `Stream.async` emission (`emit.single` / `emit.fail` /
    `emit.end`) is an `Emission`; the consumer of such a stream pulls the
    queued emissions in order and stops at the first failure or end, which
    `observe` captures.
-/

namespace CCContainer

/-! ## JSON values and `JSON.parse` -/

/-- Model of a JavaScript JSON value as produced by `JSON.parse`.
Numbers are restricted to integers (the wire protocol carries none). -/
inductive Json where
  | str (s : String)
  | num (n : Int)
  | bool (b : Bool)
  | null
  | obj (fields : List (String × Json))
  | arr (elems : List Json)

/-- Whitespace recognised by JSON (and by `String.prototype.trim` for the
characters that occur in the protocol). -/
def isWsChar (c : Char) : Bool :=
  c = ' ' || c = '\t' || c = '\n' || c = '\r'

/-- Drop leading JSON whitespace. -/
def skipWs (l : List Char) : List Char :=
  l.dropWhile isWsChar

/-- Model of `String.prototype.trim`: drop whitespace at both ends. -/
def trimChars (l : List Char) : List Char :=
  ((l.dropWhile isWsChar).reverse.dropWhile isWsChar).reverse

/-- JSON escape sequences (`\" \\ \/ \n \t \r \b \f`). -/
def unescapeChar (c : Char) : Option Char :=
  if c = '"' then some '"'
  else if c = '\\' then some '\\'
  else if c = '/' then some '/'
  else if c = 'n' then some '\n'
  else if c = 't' then some '\t'
  else if c = 'r' then some '\r'
  else if c = 'b' then some (Char.ofNat 8)
  else if c = 'f' then some (Char.ofNat 12)
  else none

/-- Parse the body of a JSON string literal (after the opening quote),
returning the decoded characters and the remaining input. -/
def parseStrChars : List Char → Option (List Char × List Char)
  | [] => none
  | c :: t =>
    if c = '"' then some ([], t)
    else if c = '\\' then
      match t with
      | [] => none
      | e :: t2 =>
        match unescapeChar e, parseStrChars t2 with
        | some ch, some (s, r) => some (ch :: s, r)
        | _, _ => none
    else
      match parseStrChars t with
      | some (s, r) => some (c :: s, r)
      | none => none

/-- Numeric value of a digit run. -/
def digitsToNat (ds : List Char) : Nat :=
  ds.foldl (fun acc c => acc * 10 + (c.toNat - '0'.toNat)) 0

/-- Parse a JSON integer (optional minus sign, digit run; fails if a
fraction or exponent follows, since floats are outside the model). -/
def parseIntLit (l : List Char) : Option (Int × List Char) :=
  let (neg, body) :=
    match l with
    | '-' :: t => (true, t)
    | _ => (false, l)
  let ds := body.takeWhile Char.isDigit
  let rest := body.dropWhile Char.isDigit
  if ds = [] then none
  else
    match rest with
    | '.' :: _ => none
    | 'e' :: _ => none
    | 'E' :: _ => none
    | _ =>
      let n : Int := Int.ofNat (digitsToNat ds)
      some (if neg then -n else n, rest)

mutual

/-- Recursive-descent JSON value parser; `fuel` bounds nesting depth. -/
def parseValue : Nat → List Char → Option (Json × List Char)
  | 0, _ => none
  | fuel + 1, input =>
    match skipWs input with
    | [] => none
    | c :: t =>
      if c = '"' then
        match parseStrChars t with
        | some (s, r) => some (Json.str (String.mk s), r)
        | none => none
      else if c = '{' then
        match skipWs t with
        | '}' :: r => some (Json.obj [], r)
        | _ =>
          match parseMembers fuel t with
          | some (ms, r) => some (Json.obj ms, r)
          | none => none
      else if c = '[' then
        match skipWs t with
        | ']' :: r => some (Json.arr [], r)
        | _ =>
          match parseElems fuel t with
          | some (es, r) => some (Json.arr es, r)
          | none => none
      else if c = 't' then
        match t with
        | 'r' :: 'u' :: 'e' :: r => some (Json.bool true, r)
        | _ => none
      else if c = 'f' then
        match t with
        | 'a' :: 'l' :: 's' :: 'e' :: r => some (Json.bool false, r)
        | _ => none
      else if c = 'n' then
        match t with
        | 'u' :: 'l' :: 'l' :: r => some (Json.null, r)
        | _ => none
      else
        match parseIntLit (c :: t) with
        | some (n, r) => some (Json.num n, r)
        | none => none

/-- Parse a non-empty member list of a JSON object, consuming the closing
brace. -/
def parseMembers : Nat → List Char → Option (List (String × Json) × List Char)
  | 0, _ => none
  | fuel + 1, input =>
    match skipWs input with
    | '"' :: t =>
      match parseStrChars t with
      | some (k, r1) =>
        match skipWs r1 with
        | ':' :: r2 =>
          match parseValue fuel r2 with
          | some (v, r3) =>
            match skipWs r3 with
            | ',' :: r4 =>
              match parseMembers fuel r4 with
              | some (ms, r5) => some ((String.mk k, v) :: ms, r5)
              | none => none
            | '}' :: r4 => some ([(String.mk k, v)], r4)
            | _ => none
          | none => none
        | _ => none
      | none => none
    | _ => none

/-- Parse a non-empty element list of a JSON array, consuming the closing
bracket. -/
def parseElems : Nat → List Char → Option (List Json × List Char)
  | 0, _ => none
  | fuel + 1, input =>
    match parseValue fuel input with
    | some (v, r1) =>
      match skipWs r1 with
      | ',' :: r2 =>
        match parseElems fuel r2 with
        | some (es, r3) => some (v :: es, r3)
        | none => none
      | ']' :: r2 => some ([v], r2)
      | _ => none
    | none => none

end

/-- Model of `JSON.parse`: the whole input must be one JSON value,
surrounded by at most whitespace. -/
def jsonParse (l : List Char) : Option Json :=
  match parseValue (l.length + 1) l with
  | some (v, rest) => if skipWs rest = [] then some v else none
  | none => none

/-! ## Stream decoder (`parseOutputStream`)

`parseOutputStream` registers a stdout `data` handler, a `close` handler and
an `error` handler on the child process and pushes emissions into an Effect
`Stream.async`.  The `data` handler appends the chunk to a text buffer,
splits on newline, keeps the final (incomplete) segment buffered, and for
every complete line: trims it, skips it when blank, otherwise calls
`JSON.parse` — `emit.single(parsed)` on success, `emit.fail(parse error
carrying the trimmed raw line)` on failure.  The `close` handler gives a
non-blank leftover buffer one final parse attempt (emitting on success,
silently ignoring failure) and then calls `emit.end()`. -/

/-- One emission pushed into the `Stream.async` queue by
`parseOutputStream`: `emit.single` with a decoded event, `emit.fail` with a
`ClaudeOutputParseError` carrying the trimmed raw line, or `emit.end`. -/
inductive Emission where
  | event (v : Json)
  | failSignal (raw : String)
  | streamEnd

/-- Split a character sequence into its newline-terminated complete lines
and the trailing segment after the last newline; this is
`buffer.split('\n')` followed by `buffer = lines.pop()`. -/
def linesOf : List Char → List (List Char) × List Char
  | [] => ([], [])
  | c :: t =>
    let p := linesOf t
    if c = '\n' then ([] :: p.1, p.2)
    else
      match p.1 with
      | [] => ([], c :: p.2)
      | l :: ls => ((c :: l) :: ls, p.2)

/-- Emissions produced for one complete line: skip when blank after
trimming, otherwise one `event` on parse success or one `failSignal`
carrying the trimmed raw line on parse failure. -/
def lineEmissions (line : List Char) : List Emission :=
  let trimmed := trimChars line
  if trimmed = [] then []
  else
    match jsonParse trimmed with
    | some v => [Emission.event v]
    | none => [Emission.failSignal (String.mk trimmed)]

/-- The stdout `data` handler: append the chunk to the buffer, split on
newline, keep the incomplete final segment buffered, emit for every
complete line.  State is `(buffer, emissions so far)`. -/
def onStdoutData (st : List Char × List Emission) (chunk : List Char) :
    List Char × List Emission :=
  let p := linesOf (st.1 ++ chunk)
  (p.2, st.2 ++ p.1.flatMap lineEmissions)

/-- Feed a sequence of stdout chunks through the `data` handler. -/
def feedChunks (chunks : List (List Char)) : List Char × List Emission :=
  chunks.foldl onStdoutData ([], [])

/-- The `close` handler: a non-blank leftover buffer gets one final parse
attempt (emitted on success, silently dropped on failure), then
`emit.end()`. -/
def onCloseBuffer (buf : List Char) : List Emission :=
  if trimChars buf = [] then [Emission.streamEnd]
  else
    match jsonParse (trimChars buf) with
    | some v => [Emission.event v, Emission.streamEnd]
    | none => [Emission.streamEnd]

/-- All emissions of `parseOutputStream` for a full process run: the stdout
chunks arrive in order, then the stream closes. -/
def parseOutputStream (chunks : List (List Char)) : List Emission :=
  let p := feedChunks chunks
  p.2 ++ onCloseBuffer p.1

/-- Consumption semantics of an Effect `Stream.async`: queued emissions are
pulled in order; the first `emit.fail` or `emit.end` terminates the
stream, so later queue entries are never observed. -/
def observe : List Emission → List Emission
  | [] => []
  | Emission.event v :: t => Emission.event v :: observe t
  | e :: _ => [e]

/-! ### Decoder lemmas -/

/-- Splitting a concatenation: the first part's complete lines come first,
and its trailing segment is prepended to the second part. -/
theorem linesOf_append (a b : List Char) :
    linesOf (a ++ b) =
      ((linesOf a).1 ++ (linesOf ((linesOf a).2 ++ b)).1,
        (linesOf ((linesOf a).2 ++ b)).2) := by
  induction a with
  | nil => simp [linesOf]
  | cons c t ih =>
    by_cases hc : c = '\n'
    · subst hc
      simp [linesOf, ih]
    · cases h : (linesOf t).1 with
      | nil =>
        simp only [List.cons_append, linesOf, hc, if_false, List.append_eq, h]
        rw [ih]
        simp [h]
      | cons l ls =>
        simp only [List.cons_append, linesOf, hc, if_false, List.append_eq, h]
        rw [ih]
        simp [h]

/-- Feeding two chunks one after the other is the same as feeding their
concatenation. -/
theorem onStdoutData_comp (st : List Char × List Emission) (c1 c2 : List Char) :
    onStdoutData (onStdoutData st c1) c2 = onStdoutData st (c1 ++ c2) := by
  unfold onStdoutData
  rw [show st.1 ++ (c1 ++ c2) = st.1 ++ c1 ++ c2 from (List.append_assoc _ _ _).symm,
    linesOf_append (st.1 ++ c1) c2]
  simp [List.flatMap_append]

/-- Folding the data handler over a non-empty chunk list equals one call on
the concatenated bytes. -/
theorem foldl_onStdoutData (c : List Char) (cs : List (List Char))
    (st : List Char × List Emission) :
    (c :: cs).foldl onStdoutData st = onStdoutData st (c :: cs).flatten := by
  induction cs generalizing c st with
  | nil => simp
  | cons c2 cs ih =>
    calc (c :: c2 :: cs).foldl onStdoutData st
        = (c2 :: cs).foldl onStdoutData (onStdoutData st c) := rfl
      _ = onStdoutData (onStdoutData st c) (c2 :: cs).flatten := ih c2 _
      _ = onStdoutData st (c ++ (c2 :: cs).flatten) := onStdoutData_comp _ _ _
      _ = onStdoutData st (c :: c2 :: cs).flatten := by simp

/-- Join lines back into a byte sequence, terminating each with a
newline. -/
def joinLines (ls : List (List Char)) : List Char :=
  ls.flatMap (fun l => l ++ ['\n'])

/-- A newline-free segment followed by a newline is one complete line. -/
theorem linesOf_line (l m : List Char) (h : '\n' ∉ l) :
    linesOf (l ++ '\n' :: m) = (l :: (linesOf m).1, (linesOf m).2) := by
  induction l with
  | nil => simp [linesOf]
  | cons c t ih =>
    have hc : c ≠ '\n' := fun hce => h (hce ▸ List.mem_cons_self c t)
    have ht : '\n' ∉ t := fun hmem => h (List.mem_cons_of_mem c hmem)
    simp only [List.cons_append, linesOf, hc, if_false, List.append_eq]
    rw [ih ht]

/-- Splitting a newline-joined list of newline-free lines recovers exactly
those lines, with an empty trailing buffer. -/
theorem linesOf_joinLines (ls : List (List Char)) (h : ∀ l ∈ ls, '\n' ∉ l) :
    linesOf (joinLines ls) = (ls, []) := by
  induction ls with
  | nil => simp [joinLines, linesOf]
  | cons l t ih =>
    have hl : '\n' ∉ l := h l (List.mem_cons_self l t)
    have ht : ∀ x ∈ t, '\n' ∉ x := fun x hx => h x (List.mem_cons_of_mem l hx)
    have : joinLines (l :: t) = l ++ '\n' :: joinLines t := by
      simp [joinLines]
    rw [this, linesOf_line l (joinLines t) hl, ih ht]

/-- A prefix made only of successful events passes through `observe`. -/
theorem observe_append_events (a b : List Emission)
    (h : ∀ e ∈ a, ∃ v, e = Emission.event v) :
    observe (a ++ b) = a ++ observe b := by
  induction a with
  | nil => rfl
  | cons e t ih =>
    obtain ⟨v, hv⟩ := h e (List.mem_cons_self e t)
    subst hv
    have ht : ∀ x ∈ t, ∃ v, x = Emission.event v :=
      fun x hx => h x (List.mem_cons_of_mem _ hx)
    simp [observe, ih ht]

/-! ## `executeTask` result logic (claude.service.ts)

`executeTask` consumes the decoded event stream with a per-event `switch`,
then awaits the process `close` event for the exit code (`code || 0`), and
finally either fails with a `ClaudeProcessError` (when the success flag is
not set and the exit code is non-zero) or succeeds with the accumulated,
trimmed output.  The model covers the run from the point where the event
stream has ended normally (stream failures and the timeout wrapper
propagate before this decision is reached). -/

/-- A decoded event as typed by `ClaudeOutputEventSchema`; `start` also
carries the optional `sessionId` property that `executeTask` probes with
`'sessionId' in event`. -/
inductive CEvent where
  | start (taskId : String) (sessionId : Option String)
  | output (content : String)
  | toolUse (toolName : String)
  | toolResult (toolName : String)
  | error (message : String)
  | complete (taskId : String) (status : String)
deriving DecidableEq

/-- The mutable locals of `executeTask`'s consumption loop. -/
structure ExecAcc where
  output : String
  newSessionId : Option String
  success : Bool
deriving DecidableEq

/-- JS falsiness of the optional `sessionId` argument (`!sessionId`):
absent or the empty string. -/
def isFalsySession (o : Option String) : Bool :=
  o.isNone || o = some ""

/-- The `switch (event.type)` body of `executeTask`'s `Stream.runForEach`
callback. -/
def stepEvent (sessionId : Option String) (acc : ExecAcc) : CEvent → ExecAcc
  | CEvent.start _ sid =>
    if isFalsySession sessionId && sid.isSome then
      { acc with newSessionId := sid }
    else acc
  | CEvent.output c => { acc with output := acc.output ++ c ++ "\n" }
  | CEvent.complete _ st => { acc with success := st = "success" }
  | CEvent.error m => { acc with output := acc.output ++ "ERROR: " ++ m ++ "\n" }
  | CEvent.toolUse _ => acc
  | CEvent.toolResult _ => acc

/-- State of `output` / `newSessionId` / `success` after the event stream
has been consumed. -/
def execAcc (sessionId : Option String) (events : List CEvent) : ExecAcc :=
  events.foldl (stepEvent sessionId)
    { output := "", newSessionId := sessionId, success := false }

/-- Model of `String.prototype.trim` on `String`. -/
def trimString (s : String) : String :=
  String.mk (trimChars s.toList)

/-- `ClaudeResult` as returned by `executeTask`. -/
structure ClaudeResult where
  sessionId : Option String
  output : String
  exitCode : Int
  success : Bool
deriving DecidableEq

/-- The error `executeTask` can fail with after the stream has ended:
`ClaudeProcessError \x7b message, exitCode, stderr \x7d` (the accumulated
output is passed as `stderr`). -/
inductive ClaudeErr where
  | processError (exitCode : Int) (stderr : String)
deriving DecidableEq

/-- `executeTask` from stream end onwards: await the exit code
(`close` delivers `code || 0`, a signal-killed process reporting `null`
maps to `0`), fail with `ClaudeProcessError` when `!success && exitCode
!== 0`, otherwise return the accumulated, trimmed output. -/
def executeTask (sessionId : Option String) (events : List CEvent)
    (exitCodeRaw : Option Int) : Except ClaudeErr ClaudeResult :=
  let acc := execAcc sessionId events
  let exitCode := exitCodeRaw.getD 0
  if !acc.success && exitCode ≠ 0 then
    Except.error (ClaudeErr.processError exitCode acc.output)
  else
    Except.ok
      { sessionId := acc.newSessionId
        output := trimString acc.output
        exitCode := exitCode
        success := acc.success }

/-- Tracks the status carried by the most recent `complete` event. -/
def statusStep (a : Option String) (e : CEvent) : Option String :=
  match e with
  | CEvent.complete _ st => some st
  | _ => a

/-- The status of the last `complete` event of a run, if any; the `switch`
overwrites `success` on every `complete`, so this is what decides the
final flag. -/
def lastCompleteStatus (events : List CEvent) : Option String :=
  events.foldl statusStep none

/-! ## Process release finalizer (`spawnClaudeProcess`)

The `acquireRelease` finalizer runs: if the process has a pid and
`process.killed` is false, send `SIGTERM`, sleep one second, and if
`process.killed` is still false send `SIGKILL`.  Node sets
`ChildProcess.killed` to `true` as soon as `kill()` successfully delivers
any signal — it does not mean the process exited. -/

/-- Observable state of a Node `ChildProcess` for the release path.
`killedFlag` is Node's `ChildProcess.killed` (a signal was successfully
delivered); `alive` is whether the OS process is still running;
`ignoresSigterm` says whether the process survives a graceful-termination
signal past the grace window; `sigkillSent` records whether `SIGKILL` was
ever sent. -/
structure ChildProcess where
  pid : Option Nat
  alive : Bool
  killedFlag : Bool
  ignoresSigterm : Bool
  sigkillSent : Bool
deriving DecidableEq

/-- `process.kill('SIGTERM')`: delivery to an existing process sets the
`killed` flag; a process that does not ignore the signal exits within the
grace window that follows. -/
def sigterm (p : ChildProcess) : ChildProcess :=
  if p.pid.isSome then
    { p with killedFlag := true, alive := p.alive && p.ignoresSigterm }
  else p

/-- `process.kill('SIGKILL')`: delivery to an existing process sets the
`killed` flag and unconditionally terminates it. -/
def sigkill (p : ChildProcess) : ChildProcess :=
  if p.pid.isSome then
    { p with killedFlag := true, alive := false, sigkillSent := true }
  else p

/-- The release finalizer of `spawnClaudeProcess`: guard on
`process.pid && !process.killed`, send `SIGTERM`, wait the 1-second grace
window (whose passage is folded into `sigterm`), and send `SIGKILL` only
if `process.killed` is still false. -/
def releaseProcess (p : ChildProcess) : ChildProcess :=
  if p.pid.isSome && !p.killedFlag then
    let p1 := sigterm p
    if !p1.killedFlag then sigkill p1 else p1
  else p

/-- A live process that ignores `SIGTERM` (still running after the grace
window). -/
def stubbornProcess : ChildProcess :=
  { pid := some 42
    alive := true
    killedFlag := false
    ignoresSigterm := true
    sigkillSent := false }

/-! ## Session store (session-manager.service.ts)

The session table is a JS `Map<string, SessionState>` held in an Effect
`Ref`; it is modelled as an association list with `Map` lookup/set/delete
semantics.  `Date` values are milliseconds since the epoch. -/

/-- `SessionState` (internal record of the session manager). `metadata` is
an opaque JSON record. -/
structure SessionState where
  sessionId : String
  userId : String
  createdAt : Nat
  lastAccessedAt : Nat
  expiresAt : Nat
  claudeSessionId : Option String
  taskCount : Nat
  metadata : Option Json

/-- The public session object returned by `createSession` / `getSession`
(`updatedAt` mirrors `lastAccessedAt`). -/
structure SessionView where
  sessionId : String
  userId : String
  createdAt : Nat
  updatedAt : Nat
  expiresAt : Nat
  claudeSessionId : Option String
  metadata : Option Json

/-- `Partial<SessionState>` as passed to `updateSession`: every field
optionally present. -/
structure SessionUpdates where
  sessionId : Option String := none
  userId : Option String := none
  createdAt : Option Nat := none
  lastAccessedAt : Option Nat := none
  expiresAt : Option Nat := none
  claudeSessionId : Option (Option String) := none
  taskCount : Option Nat := none
  metadata : Option (Option Json) := none

/-- Errors of the session manager operations used by the claims. -/
inductive SessionErr where
  | notFound (sessionId : String)
  | expired (sessionId : String) (expiredAt : Nat)
deriving DecidableEq

/-- The session table. -/
def SessionTable := List (String × SessionState)

/-- `Map.prototype.get`. -/
def lookupSession (st : SessionTable) (k : String) : Option SessionState :=
  match st with
  | [] => none
  | (k', v) :: t => if k' = k then some v else lookupSession t k

/-- `Map.prototype.set`: replace in place if the key exists, else append. -/
def setSession (st : SessionTable) (k : String) (v : SessionState) :
    SessionTable :=
  match st with
  | [] => [(k, v)]
  | (k', v') :: t =>
    if k' = k then (k, v) :: t else (k', v') :: setSession t k v

/-- `Map.prototype.delete` of every entry under the key. -/
def removeSession (st : SessionTable) (k : String) : SessionTable :=
  st.filter (fun e => e.1 ≠ k)

/-- `createSession`: a fresh record with `createdAt = lastAccessedAt =
now`, `expiresAt = now + sessionTimeout`, `taskCount = 0`, inserted under
the generated id (`uuidv4()` is modelled by the `sid` argument); returns
the public view (which carries no `claudeSessionId`). -/
def createSession (st : SessionTable) (sid userId : String)
    (metadata : Option Json) (now sessionTimeout : Nat) :
    SessionTable × SessionView :=
  let newSession : SessionState :=
    { sessionId := sid
      userId := userId
      createdAt := now
      lastAccessedAt := now
      expiresAt := now + sessionTimeout
      claudeSessionId := none
      taskCount := 0
      metadata := metadata }
  (setSession st sid newSession,
    { sessionId := newSession.sessionId
      userId := newSession.userId
      createdAt := newSession.createdAt
      updatedAt := newSession.lastAccessedAt
      expiresAt := newSession.expiresAt
      claudeSessionId := none
      metadata := newSession.metadata })

/-- `getSession`: absent id fails with not-found; `now > expiresAt` evicts
the record and fails with expired; otherwise refresh `lastAccessedAt` and
return the view with `updatedAt = now`. -/
def getSession (st : SessionTable) (sid : String) (now : Nat) :
    SessionTable × Except SessionErr SessionView :=
  match lookupSession st sid with
  | none => (st, Except.error (SessionErr.notFound sid))
  | some session =>
    if now > session.expiresAt then
      (removeSession st sid,
        Except.error (SessionErr.expired sid session.expiresAt))
    else
      (setSession st sid { session with lastAccessedAt := now },
        Except.ok
          { sessionId := session.sessionId
            userId := session.userId
            createdAt := session.createdAt
            updatedAt := now
            expiresAt := session.expiresAt
            claudeSessionId := session.claudeSessionId
            metadata := session.metadata })

/-- The merge `\x7b ...session, ...updates, sessionId: session.sessionId,
userId: session.userId, createdAt: session.createdAt, lastAccessedAt: new
Date() \x7d`: spread the updates over the record, then restore the
identity fields and stamp `lastAccessedAt`. -/
def mergeSession (session : SessionState) (updates : SessionUpdates)
    (now : Nat) : SessionState :=
  let spread : SessionState :=
    { sessionId := updates.sessionId.getD session.sessionId
      userId := updates.userId.getD session.userId
      createdAt := updates.createdAt.getD session.createdAt
      lastAccessedAt := updates.lastAccessedAt.getD session.lastAccessedAt
      expiresAt := updates.expiresAt.getD session.expiresAt
      claudeSessionId := updates.claudeSessionId.getD session.claudeSessionId
      taskCount := updates.taskCount.getD session.taskCount
      metadata := updates.metadata.getD session.metadata }
  { spread with
      sessionId := session.sessionId
      userId := session.userId
      createdAt := session.createdAt
      lastAccessedAt := now }

/-- The `Ref.update` step of `updateSession`, writing the merged record
that was computed from a previously read `session`.  Kept separate
because in the source the read (`Ref.get`) and this write are two distinct
atomic steps. -/
def updateWriteStep (sid : String) (sessionRead : SessionState)
    (updates : SessionUpdates) (now : Nat) (st : SessionTable) :
    SessionTable :=
  setSession st sid (mergeSession sessionRead updates now)

/-- `updateSession`: read the table, fail with not-found on an absent id,
otherwise write the merged record. -/
def updateSession (st : SessionTable) (sid : String)
    (updates : SessionUpdates) (now : Nat) :
    SessionTable × Except SessionErr Unit :=
  match lookupSession st sid with
  | none => (st, Except.error (SessionErr.notFound sid))
  | some session => (updateWriteStep sid session updates now st, Except.ok ())

/-- `incrementTaskCount`: one atomic `Ref.update`; a missing id leaves the
table as is, a present id gets `taskCount + 1` and a fresh
`lastAccessedAt`. -/
def incrementTaskCount (st : SessionTable) (sid : String) (now : Nat) :
    SessionTable :=
  match lookupSession st sid with
  | none => st
  | some session =>
    setSession st sid
      { session with taskCount := session.taskCount + 1, lastAccessedAt := now }

/-! ### Session table lemmas -/

theorem lookupSession_setSession_self (st : SessionTable) (k : String)
    (v : SessionState) : lookupSession (setSession st k v) k = some v := by
  induction st with
  | nil => simp [setSession, lookupSession]
  | cons e t ih =>
    by_cases h : e.1 = k
    · simp [setSession, h, lookupSession]
    · simp [setSession, h, lookupSession, ih]

theorem lookupSession_setSession_other (st : SessionTable) (k k' : String)
    (v : SessionState) (h : k' ≠ k) :
    lookupSession (setSession st k v) k' = lookupSession st k' := by
  have h' : ¬k = k' := fun he => h he.symm
  induction st with
  | nil => simp [setSession, lookupSession, h']
  | cons e t ih =>
    obtain ⟨ek, ev⟩ := e
    by_cases he : ek = k
    · subst he
      simp [setSession, lookupSession, h']
    · simp [setSession, he, lookupSession, ih]

theorem lookupSession_removeSession_self (st : SessionTable) (k : String) :
    lookupSession (removeSession st k) k = none := by
  induction st with
  | nil => rfl
  | cons e t ih =>
    by_cases h : e.1 = k
    · simpa [removeSession, h] using ih
    · simpa [removeSession, h, lookupSession] using ih

/-! ## Example session data for witnesses -/

/-- A session created at 10 that expires at 100. -/
def exSession : SessionState :=
  { sessionId := "s1"
    userId := "u1"
    createdAt := 10
    lastAccessedAt := 10
    expiresAt := 100
    claudeSessionId := none
    taskCount := 2
    metadata := none }

/-- A one-entry session table. -/
def exTable : SessionTable := [("s1", exSession)]

/-- An update that tries to overwrite the identity fields as well as
normal fields. -/
def exUpdates : SessionUpdates :=
  { sessionId := some "evil"
    userId := some "intruder"
    createdAt := some 999
    lastAccessedAt := some 999
    taskCount := some 7 }

/-! ## Claim theorems -/

/-- C8. `createSession` inserts, under the freshly generated id, a record
with `createdAt = lastAccessedAt = now`, `expiresAt = now +
sessionTimeout` and `taskCount = 0`, leaves every other id untouched, and
returns that session's public view. -/
theorem createSession_contract (st : SessionTable) (sid userId : String)
    (metadata : Option Json) (now timeout : Nat)
    (fresh : lookupSession st sid = none) :
    lookupSession st sid = none ∧
    lookupSession (createSession st sid userId metadata now timeout).1 sid =
      some
        { sessionId := sid
          userId := userId
          createdAt := now
          lastAccessedAt := now
          expiresAt := now + timeout
          claudeSessionId := none
          taskCount := 0
          metadata := metadata } ∧
    (createSession st sid userId metadata now timeout).2 =
      { sessionId := sid
        userId := userId
        createdAt := now
        updatedAt := now
        expiresAt := now + timeout
        claudeSessionId := none
        metadata := metadata } ∧
    ∀ k, k ≠ sid →
      lookupSession (createSession st sid userId metadata now timeout).1 k =
        lookupSession st k := by
  refine ⟨fresh, ?_, rfl, ?_⟩
  · exact lookupSession_setSession_self st sid _
  · intro k hk
    exact lookupSession_setSession_other st sid k _ hk

/-- C8 witness: creating a session in the empty table at time 10 with
timeout 90. -/
theorem createSession_contract_witness :
    lookupSession (createSession [] "s1" "u1" none 10 90).1 "s1" =
      some
        { sessionId := "s1"
          userId := "u1"
          createdAt := 10
          lastAccessedAt := 10
          expiresAt := 100
          claudeSessionId := none
          taskCount := 0
          metadata := none } :=
  (createSession_contract [] "s1" "u1" none 10 90 rfl).2.1

/-- C10. `incrementTaskCount` on an absent id succeeds and leaves the
table unchanged (silent no-op, no not-found failure); on a present id it
bumps `taskCount` by one and refreshes `lastAccessedAt` in one atomic
table update, leaving other ids untouched. -/
theorem incrementTaskCount_contract (st : SessionTable) (sid : String)
    (now : Nat) :
    (lookupSession st sid = none → incrementTaskCount st sid now = st) ∧
    ∀ s, lookupSession st sid = some s →
      lookupSession (incrementTaskCount st sid now) sid =
        some { s with taskCount := s.taskCount + 1, lastAccessedAt := now } ∧
      ∀ k, k ≠ sid →
        lookupSession (incrementTaskCount st sid now) k = lookupSession st k := by
  constructor
  · intro h
    simp [incrementTaskCount, h]
  · intro s hs
    refine ⟨?_, ?_⟩
    · simp [incrementTaskCount, hs, lookupSession_setSession_self]
    · intro k hk
      simp [incrementTaskCount, hs, lookupSession_setSession_other st sid k _ hk]

/-- C10 witness: incrementing the example session at time 50, and a no-op
increment of an unknown id. -/
theorem incrementTaskCount_contract_witness :
    incrementTaskCount exTable "nope" 50 = exTable ∧
    lookupSession (incrementTaskCount exTable "s1" 50) "s1" =
      some { exSession with taskCount := 3, lastAccessedAt := 50 } :=
  ⟨(incrementTaskCount_contract exTable "nope" 50).1 rfl,
    ((incrementTaskCount_contract exTable "s1" 50).2 exSession rfl).1⟩

/-- C7. `updateSession` on an absent id fails with not-found and changes
nothing; on a present id it succeeds, the stored record keeps
`sessionId`, `userId` and `createdAt` from the old record even when the
update supplies them, takes every other supplied field from the update,
stamps `lastAccessedAt := now`, and other ids are untouched. -/
theorem updateSession_contract (st : SessionTable) (sid : String)
    (updates : SessionUpdates) (now : Nat) :
    (lookupSession st sid = none →
      updateSession st sid updates now =
        (st, Except.error (SessionErr.notFound sid))) ∧
    ∀ s, lookupSession st sid = some s →
      (updateSession st sid updates now).2 = Except.ok () ∧
      lookupSession (updateSession st sid updates now).1 sid =
        some
          { sessionId := s.sessionId
            userId := s.userId
            createdAt := s.createdAt
            lastAccessedAt := now
            expiresAt := updates.expiresAt.getD s.expiresAt
            claudeSessionId := updates.claudeSessionId.getD s.claudeSessionId
            taskCount := updates.taskCount.getD s.taskCount
            metadata := updates.metadata.getD s.metadata } ∧
      ∀ k, k ≠ sid →
        lookupSession (updateSession st sid updates now).1 k =
          lookupSession st k := by
  constructor
  · intro h
    simp [updateSession, h]
  · intro s hs
    refine ⟨?_, ?_, ?_⟩
    · simp [updateSession, hs]
    · simp [updateSession, hs, updateWriteStep, mergeSession,
        lookupSession_setSession_self]
    · intro k hk
      simp [updateSession, hs, updateWriteStep,
        lookupSession_setSession_other st sid k _ hk]

/-- C7 witness: an update that supplies values for the identity fields
(and for `lastAccessedAt`) does not dislodge them; the supplied
`taskCount` is merged and `lastAccessedAt` is stamped with now = 60. -/
theorem updateSession_contract_witness :
    lookupSession (updateSession exTable "s1" exUpdates 60).1 "s1" =
      some
        { sessionId := "s1"
          userId := "u1"
          createdAt := 10
          lastAccessedAt := 60
          expiresAt := 100
          claudeSessionId := none
          taskCount := 7
          metadata := none } :=
  (((updateSession_contract exTable "s1" exUpdates 60).2 exSession rfl).2).1

/-- C3. `getSession` fails with not-found on an absent id; on an id whose
`expiresAt` has passed it evicts the record and fails with expired, so a
second `getSession` at any later time fails with not-found; on a live id
it refreshes `lastAccessedAt` and returns the view as of the refreshed
time. -/
theorem getSession_contract (st : SessionTable) (sid : String) (now : Nat) :
    (lookupSession st sid = none →
      getSession st sid now = (st, Except.error (SessionErr.notFound sid))) ∧
    (∀ s, lookupSession st sid = some s → now > s.expiresAt →
      (getSession st sid now).2 =
        Except.error (SessionErr.expired sid s.expiresAt) ∧
      lookupSession (getSession st sid now).1 sid = none ∧
      ∀ now2, (getSession (getSession st sid now).1 sid now2).2 =
        Except.error (SessionErr.notFound sid)) ∧
    ∀ s, lookupSession st sid = some s → ¬now > s.expiresAt →
      (getSession st sid now).2 =
        Except.ok
          { sessionId := s.sessionId
            userId := s.userId
            createdAt := s.createdAt
            updatedAt := now
            expiresAt := s.expiresAt
            claudeSessionId := s.claudeSessionId
            metadata := s.metadata } ∧
      lookupSession (getSession st sid now).1 sid =
        some { s with lastAccessedAt := now } := by
  refine ⟨?_, ?_, ?_⟩
  · intro h
    simp [getSession, h]
  · intro s hs hexp
    have hrm : lookupSession (removeSession st sid) sid = none :=
      lookupSession_removeSession_self st sid
    refine ⟨?_, ?_, ?_⟩
    · simp [getSession, hs, hexp]
    · simp [getSession, hs, hexp, hrm]
    · intro now2
      simp [getSession, hs, hexp, hrm]
  · intro s hs hlive
    refine ⟨?_, ?_⟩
    · simp [getSession, hs, hlive]
    · simp [getSession, hs, hlive, lookupSession_setSession_self]

/-- C3 witness: getting the example session (expires at 100) at time 200
fails with expired; a second get at time 300 fails with not-found. -/
theorem getSession_contract_witness :
    (getSession exTable "s1" 200).2 =
      Except.error (SessionErr.expired "s1" 100) ∧
    (getSession (getSession exTable "s1" 200).1 "s1" 300).2 =
      Except.error (SessionErr.notFound "s1") :=
  have h := ((getSession_contract exTable "s1" 200).2.1) exSession rfl (by decide)
  ⟨h.1, h.2.2 300⟩

/-! ### Success-flag lemmas for `executeTask` -/

theorem statusStep_foldl (t : List CEvent) (a : Option String) :
    t.foldl statusStep a =
      match t.foldl statusStep none with
      | some s => some s
      | none => a := by
  induction t generalizing a with
  | nil => rfl
  | cons e t ih =>
    show t.foldl statusStep (statusStep a e) = _
    rw [ih (statusStep a e)]
    show _ =
      match t.foldl statusStep (statusStep none e) with
      | some s => some s
      | none => a
    rw [ih (statusStep none e)]
    cases hx : t.foldl statusStep none with
    | some s => rfl
    | none => cases e <;> rfl

theorem execAcc_success_aux (sid : Option String) (events : List CEvent) :
    ∀ acc : ExecAcc,
      (events.foldl (stepEvent sid) acc).success =
        match events.foldl statusStep none with
        | some st => decide (st = "success")
        | none => acc.success := by
  induction events with
  | nil => intro acc; rfl
  | cons e t ih =>
    intro acc
    show (t.foldl (stepEvent sid) (stepEvent sid acc e)).success = _
    rw [ih (stepEvent sid acc e)]
    show _ =
      match t.foldl statusStep (statusStep none e) with
      | some st => decide (st = "success")
      | none => acc.success
    rw [statusStep_foldl t (statusStep none e)]
    cases hx : t.foldl statusStep none with
    | some s => rfl
    | none =>
      cases e with
      | start tid esid => simp [stepEvent, statusStep, apply_ite ExecAcc.success]
      | output c => rfl
      | toolUse n => rfl
      | toolResult n => rfl
      | error m => rfl
      | complete tid st => rfl

/-- The final success flag is exactly whether the LAST `complete` event of
the run carried status `success`. -/
theorem execAcc_success (sid : Option String) (events : List CEvent) :
    (execAcc sid events).success =
      match lastCompleteStatus events with
      | some st => decide (st = "success")
      | none => false :=
  execAcc_success_aux sid events _

/-! ### C2: the exit decision of `executeTask` -/

/-- A run in which a success `complete` is later overwritten by a failure
`complete`. -/
def c2Events : List CEvent :=
  [CEvent.complete "t1" "success", CEvent.complete "t1" "failure"]

/-- C2 counterexample: a `complete` event with status success WAS seen in
this run, yet with exit code 1 `executeTask` fails with a process error —
the claim's "in every other case it succeeds" is false, because the
`switch` overwrites the flag on every `complete` event. -/
theorem executeTask_success_seen_still_fails :
    CEvent.complete "t1" "success" ∈ c2Events ∧
    executeTask none c2Events (some 1) =
      Except.error (ClaudeErr.processError 1 "") := by
  exact ⟨by decide, rfl⟩

/-- C2 (amended). After the stream ends the exit code is awaited; the run
fails with a `ClaudeProcessError` carrying the exit code and accumulated
output exactly when the LAST `complete` event's status was not success
(or none was seen) and the exit code is non-zero; otherwise it succeeds
with the accumulated output, trimmed. -/
theorem executeTask_exit_decision (sid : Option String)
    (events : List CEvent) (ec : Option Int) :
    (lastCompleteStatus events ≠ some "success" → ec.getD 0 ≠ 0 →
      executeTask sid events ec =
        Except.error
          (ClaudeErr.processError (ec.getD 0) (execAcc sid events).output)) ∧
    ((lastCompleteStatus events = some "success" ∨ ec.getD 0 = 0) →
      executeTask sid events ec =
        Except.ok
          { sessionId := (execAcc sid events).newSessionId
            output := trimString (execAcc sid events).output
            exitCode := ec.getD 0
            success := (execAcc sid events).success }) := by
  constructor
  · intro h1 h2
    have hs : (execAcc sid events).success = false := by
      rw [execAcc_success]
      cases hx : lastCompleteStatus events with
      | none => rfl
      | some st =>
        have : st ≠ "success" := fun he => h1 (by rw [hx, he])
        simp [this]
    simp [executeTask, hs, h2]
  · intro h
    cases h with
    | inl hsucc =>
      have hs : (execAcc sid events).success = true := by
        rw [execAcc_success, hsucc]
        simp
      simp [executeTask, hs]
    | inr hec =>
      simp [executeTask, hec]

/-- C2 witness: a run ending in a failure `complete` with exit code 2
fails with the exit code and the accumulated output. -/
theorem executeTask_exit_decision_witness :
    executeTask none [CEvent.output "hi", CEvent.complete "t1" "failure"]
        (some 2) =
      Except.error (ClaudeErr.processError 2 "hi\n") :=
  (executeTask_exit_decision none
      [CEvent.output "hi", CEvent.complete "t1" "failure"] (some 2)).1
    (by decide) (by decide)

/-! ### C5: the release finalizer never reaches its force-kill branch -/

/-- C5. The release finalizer tests `process.killed`, which Node sets to
true as soon as `kill('SIGTERM')` delivers the signal — it does not mean
the process exited.  Hence `SIGKILL` is never sent on any release path,
and a process that survives `SIGTERM` past the grace window is still
alive after release, contradicting the claim that release falls back to
forceful termination and always terminates a live process. -/
theorem releaseProcess_never_sigkills :
    (∀ p : ChildProcess, (releaseProcess p).sigkillSent = p.sigkillSent) ∧
    (releaseProcess stubbornProcess).alive = true ∧
    (releaseProcess stubbornProcess).killedFlag = true := by
  refine ⟨?_, rfl, rfl⟩
  intro p
  by_cases h : (p.pid.isSome && !p.killedFlag) = true
  · have hp : p.pid.isSome = true := (Bool.and_eq_true _ _ |>.mp h).1
    have hk : p.killedFlag = false := by
      have := (Bool.and_eq_true _ _ |>.mp h).2
      simpa using this
    simp [releaseProcess, h, sigterm, hp, hk]
  · simp [releaseProcess, h]

/-! ### C4: `updateSession` loses concurrent updates -/

/-- Fiber A's update: attach an external session id. -/
def c4UpdatesA : SessionUpdates := { claudeSessionId := some (some "ext-1") }

/-- Fiber B's update: set the task count. -/
def c4UpdatesB : SessionUpdates := { taskCount := some 5 }

/-- The racy interleaving of two concurrent `updateSession` calls on the
same id: both fibers perform their `Ref.get` before either performs its
`Ref.update`, so each write step uses the record read from the initial
table. -/
def c4Racy : SessionTable :=
  match lookupSession exTable "s1", lookupSession exTable "s1" with
  | some readA, some readB =>
    updateWriteStep "s1" readB c4UpdatesB 7
      (updateWriteStep "s1" readA c4UpdatesA 6 exTable)
  | _, _ => exTable

/-- Sequential application A then B. -/
def c4SeqAB : SessionTable :=
  (updateSession (updateSession exTable "s1" c4UpdatesA 6).1 "s1"
      c4UpdatesB 7).1

/-- Sequential application B then A. -/
def c4SeqBA : SessionTable :=
  (updateSession (updateSession exTable "s1" c4UpdatesB 7).1 "s1"
      c4UpdatesA 6).1

/-- C4. `updateSession` performs `Ref.get` and then a separate
`Ref.update` writing a record computed from the earlier read, so the
interleaving in which both fibers read before either writes loses fiber
A's field: every sequential order keeps both `claudeSessionId = "ext-1"`
and `taskCount = 5`, but the racy interleaving drops the
`claudeSessionId` update.  The store is therefore not linearizable per
session id for concurrent `updateSession` calls. -/
theorem updateSession_lost_update :
    (lookupSession c4Racy "s1").map SessionState.claudeSessionId =
      some none ∧
    (lookupSession c4SeqAB "s1").map SessionState.claudeSessionId =
      some (some "ext-1") ∧
    (lookupSession c4SeqBA "s1").map SessionState.claudeSessionId =
      some (some "ext-1") ∧
    (lookupSession c4Racy "s1").map SessionState.taskCount = some 5 ∧
    (lookupSession c4SeqAB "s1").map SessionState.taskCount = some 5 ∧
    (lookupSession c4SeqBA "s1").map SessionState.taskCount = some 5 :=
  ⟨rfl, rfl, rfl, rfl, rfl, rfl⟩

/-! ### C6: chunk-boundary invariance of the decoder -/

/-- First chunk of the spec's decoder example. -/
def c6Chunk1 : List Char := "\x7b\"type\":\"start\"".toList

/-- Second chunk of the spec's decoder example. -/
def c6Chunk2 : List Char := ",\"taskId\":\"t1\"\x7d\n\x7b\"type\":\"output\"".toList

/-- Third chunk of the spec's decoder example. -/
def c6Chunk3 : List Char := ",\"content\":\"hi\"\x7d\n".toList

/-- The decoded `start` event of the example. -/
def c6StartEvent : Json :=
  Json.obj [("type", Json.str "start"), ("taskId", Json.str "t1")]

/-- The decoded `output` event of the example. -/
def c6OutputEvent : Json :=
  Json.obj [("type", Json.str "output"), ("content", Json.str "hi")]

/-- C6. The decoder's output is invariant under chunk boundaries: any
chunking of a byte sequence produces the same ordered emission sequence
as feeding the whole sequence at once; in particular the spec's
three-chunk example yields exactly the `start` event then the `output`
event, in byte-arrival order, before the stream end. -/
theorem parseOutputStream_chunk_invariant :
    (∀ chunks : List (List Char),
      parseOutputStream chunks = parseOutputStream [chunks.flatten]) ∧
    observe (parseOutputStream [c6Chunk1, c6Chunk2, c6Chunk3]) =
      [Emission.event c6StartEvent, Emission.event c6OutputEvent,
        Emission.streamEnd] := by
  constructor
  · intro chunks
    cases chunks with
    | nil => rfl
    | cons c cs =>
      show (feedChunks (c :: cs)).2 ++ onCloseBuffer (feedChunks (c :: cs)).1 =
        (feedChunks [(c :: cs).flatten]).2 ++
          onCloseBuffer (feedChunks [(c :: cs).flatten]).1
      have h1 : feedChunks (c :: cs) = onStdoutData ([], []) (c :: cs).flatten :=
        foldl_onStdoutData c cs ([], [])
      have h2 : feedChunks [(c :: cs).flatten] =
          onStdoutData ([], []) (c :: cs).flatten := by
        simp [feedChunks]
      rw [h1, h2]
  · rfl

/-! ### C9: the close handler's final decode attempt -/

/-- C9. When the underlying stream closes, the leftover buffer (the final
line not terminated by a newline) gets one best-effort decode attempt: on
success the decoded event is emitted just before the stream end, on
failure the leftover is dropped and the stream still ends normally — the
close path never adds a decode-failure signal. -/
theorem close_leftover_contract (chunks : List (List Char)) :
    (∀ v, jsonParse (trimChars (feedChunks chunks).1) = some v →
      parseOutputStream chunks =
        (feedChunks chunks).2 ++ [Emission.event v, Emission.streamEnd]) ∧
    (jsonParse (trimChars (feedChunks chunks).1) = none →
      parseOutputStream chunks =
        (feedChunks chunks).2 ++ [Emission.streamEnd]) := by
  constructor
  · intro v hv
    have hne : trimChars (feedChunks chunks).1 ≠ [] := by
      intro he
      rw [he] at hv
      exact Option.noConfusion hv
    show (feedChunks chunks).2 ++ onCloseBuffer (feedChunks chunks).1 = _
    rw [onCloseBuffer, if_neg hne, hv]
  · intro hv
    show (feedChunks chunks).2 ++ onCloseBuffer (feedChunks chunks).1 = _
    by_cases he : trimChars (feedChunks chunks).1 = []
    · rw [onCloseBuffer, if_pos he]
    · rw [onCloseBuffer, if_neg he, hv]

/-- C9 witness: a final line without a trailing newline is decoded and
emitted on close, and an undecodable leftover is dropped while the stream
still ends normally. -/
theorem close_leftover_contract_witness :
    parseOutputStream ["\x7b\"type\":\"output\",\"content\":\"hi\"\x7d".toList] =
      [Emission.event c6OutputEvent, Emission.streamEnd] ∧
    parseOutputStream ["oops".toList] = [Emission.streamEnd] :=
  ⟨(close_leftover_contract
        ["\x7b\"type\":\"output\",\"content\":\"hi\"\x7d".toList]).1
      c6OutputEvent rfl,
    (close_leftover_contract ["oops".toList]).2 rfl⟩

/-! ### C1: a malformed line terminates the event stream -/

/-- A chunk whose first line is malformed and whose second line is valid
JSON. -/
def c1BadChunk : List Char :=
  "bad\n\x7b\"type\":\"output\",\"content\":\"hi\"\x7d\n".toList

/-- C1 counterexample: `emit.fail` terminates an Effect `Stream.async`,
so after the malformed line `bad` the observed stream consists of the
decode-failure signal only — the syntactically valid `output` line that
follows is never emitted, refuting "does not terminate the event
sequence". -/
theorem parse_failure_halts_stream :
    observe (parseOutputStream [c1BadChunk]) = [Emission.failSignal "bad"] ∧
    Emission.event c6OutputEvent ∉ observe (parseOutputStream [c1BadChunk]) := by
  refine ⟨rfl, ?_⟩
  intro hmem
  rw [show observe (parseOutputStream [c1BadChunk]) =
      [Emission.failSignal "bad"] from rfl] at hmem
  rw [List.mem_singleton] at hmem
  exact Emission.noConfusion hmem

/-- C1 (amended). A line that fails structured decode produces exactly one
decode-failure signal carrying the trimmed raw line, and that failure
terminates the event sequence: the observed stream is the events of the
valid lines before it followed by the failure signal; no later line is
emitted. -/
theorem decode_failure_terminates_stream (good rest : List (List Char))
    (bad : List Char)
    (hgood : ∀ l ∈ good,
      '\n' ∉ l ∧ (trimChars l = [] ∨ ∃ v, jsonParse (trimChars l) = some v))
    (hbadnl : '\n' ∉ bad)
    (hbadne : trimChars bad ≠ [])
    (hbadparse : jsonParse (trimChars bad) = none)
    (hrest : ∀ l ∈ rest, '\n' ∉ l) :
    observe (parseOutputStream [joinLines (good ++ bad :: rest)]) =
      good.flatMap lineEmissions ++
        [Emission.failSignal (String.mk (trimChars bad))] := by
  have hnl : ∀ l ∈ good ++ bad :: rest, '\n' ∉ l := by
    intro l hl
    rcases List.mem_append.mp hl with hg | hbr
    · exact (hgood l hg).1
    · rcases List.mem_cons.mp hbr with he | hr
      · exact he ▸ hbadnl
      · exact hrest l hr
  have hsplit : linesOf (joinLines (good ++ bad :: rest)) =
      (good ++ bad :: rest, []) :=
    linesOf_joinLines _ hnl
  have hrun : parseOutputStream [joinLines (good ++ bad :: rest)] =
      (good ++ bad :: rest).flatMap lineEmissions ++ [Emission.streamEnd] := by
    show (feedChunks _).2 ++ onCloseBuffer (feedChunks _).1 = _
    have hfeed : feedChunks [joinLines (good ++ bad :: rest)] =
        ([], (good ++ bad :: rest).flatMap lineEmissions) := by
      show onStdoutData ([], []) (joinLines (good ++ bad :: rest)) = _
      rw [onStdoutData, List.nil_append, hsplit]
      simp
    rw [hfeed]
    rfl
  have hbademit : lineEmissions bad =
      [Emission.failSignal (String.mk (trimChars bad))] := by
    rw [lineEmissions]
    simp only [hbadne, if_false, hbadparse]
  have hgoodevents : ∀ e ∈ good.flatMap lineEmissions,
      ∃ v, e = Emission.event v := by
    intro e he
    rcases List.mem_flatMap.mp he with ⟨l, hl, hel⟩
    rcases (hgood l hl).2 with hblank | ⟨v, hv⟩
    · rw [lineEmissions, if_pos hblank] at hel
      exact absurd hel (List.not_mem_nil e)
    · have hne : trimChars l ≠ [] := by
        intro hc
        rw [hc] at hv
        exact Option.noConfusion hv
      rw [lineEmissions, if_neg hne, hv] at hel
      rw [List.mem_singleton] at hel
      exact ⟨v, hel⟩
  rw [hrun, List.flatMap_append,
    show (bad :: rest).flatMap lineEmissions =
      lineEmissions bad ++ rest.flatMap lineEmissions from rfl,
    hbademit, List.append_assoc]
  rw [observe_append_events _ _ hgoodevents]
  rfl

/-- C1 amended-claim witness: one valid line, then the malformed line
`bad`, then another valid line — the observed stream is the first event
followed by the failure signal. -/
theorem decode_failure_terminates_stream_witness :
    observe (parseOutputStream
        [joinLines
          ["\x7b\"type\":\"start\",\"taskId\":\"t1\"\x7d".toList,
            "bad".toList,
            "\x7b\"type\":\"output\",\"content\":\"hi\"\x7d".toList]]) =
      [Emission.event c6StartEvent, Emission.failSignal "bad"] := by
  have h := decode_failure_terminates_stream
    ["\x7b\"type\":\"start\",\"taskId\":\"t1\"\x7d".toList]
    ["\x7b\"type\":\"output\",\"content\":\"hi\"\x7d".toList]
    "bad".toList
    (by
      intro l hl
      rw [List.mem_singleton] at hl
      subst hl
      exact ⟨by decide, Or.inr ⟨c6StartEvent, rfl⟩⟩)
    (by decide) (by decide) rfl
    (by
      intro l hl
      rw [List.mem_singleton] at hl
      subst hl
      decide)
  simpa using h

end CCContainer
